import Mathlib

/-!
Verification development for the VirtIO virtqueue core of this repository.

The split-queue model follows `src/drivers/virtio/virtqueue/split.rs`, the
packed-queue model follows `src/drivers/virtio/virtqueue/packed.rs`.  The
shared virtqueue module (`MemPool`, `MemDescr`, token types, flag constants)
is not part of the source excerpt; the corresponding definitions are modelled
from the specification and marked as such in their doc comments.

Machine integers are modelled as `Nat` with explicit `% 2 ^ w` where the code
relies on wrapping; device memory (descriptor tables and rings) is modelled as
`List`s with the volatile writes becoming `List.set`.
-/

namespace Virtq

/-- Modelled from the spec: descriptor flag bit `NEXT` (shared flag bits of
the 16-byte wire descriptor, VirtIO values; the shared module defining them is
not in the source excerpt). -/
def DescF.NEXT : Nat := 1

/-- Modelled from the spec: descriptor flag bit `WRITE`. -/
def DescF.WRITE : Nat := 2

/-- Modelled from the spec: descriptor flag bit `INDIRECT`. -/
def DescF.INDIRECT : Nat := 4

/-- Modelled from the spec: an owned chunk of DMA-visible memory with its
virtual pointer, length in bytes and stable pool identifier (the `MemDescr`
type lives in the shared module that is not in the source excerpt). -/
structure MemDescr where
  ptr : Nat
  len : Nat
  id : Nat
deriving DecidableEq

/-- Modelled from the spec: address translation (`paging::virt_to_phys`) is
the transport's concern and is out of scope; it is modelled as the identity
on addresses. -/
def virt_to_phys (a : Nat) : Nat := a

/-- Modelled from the spec: the error kinds surfaced by queue APIs (section 7
of the spec; the `VirtqError` enum lives in the module that is not in the
source excerpt). -/
inductive VirtqError where
  | bufferNotSpecified
  | bufferSizeWrong (len : Nat)
  | bufferInWithDirect
  | noDescrAvail
  | allocationError
  | queueNotExisting (idx : Nat)
  | sizeNotAllowed (size : Nat)
  | featureNotNegotiated
  | general
deriving DecidableEq

namespace Split

/-- A 16-byte split-layout descriptor (`virtq::Desc`): `addr:u64, len:u32,
flags:u16, next:u16`, all modelled as `Nat`. -/
structure Desc where
  addr : Nat
  len : Nat
  flags : Nat
  next : Nat
deriving DecidableEq

/-- The all-zero descriptor, the stand-in for a not-yet-initialized slot of
the `MaybeUninit` descriptor table. -/
def dflt : Desc := { addr := 0, len := 0, flags := 0, next := 0 }

/-- Read slot `i` of the descriptor table (out-of-range reads yield the
zero descriptor). -/
def tget (t : List Desc) (i : Nat) : Desc := (t[i]?).getD dflt

/-- Modelled from the spec: the caller-visible buffer half as the split queue
sees it, a chain of `MemDescr` (`as_slice`) plus the logical length in bytes
(the `Buffer` type lives in the module that is not in the source excerpt). -/
structure Buffer where
  desc_lst : List MemDescr
  len : Nat
deriving DecidableEq

/-- Modelled from the spec: the indirect control table carried by a
`TransferToken` (`ctrl_desc: Option<Box<[Desc]>>`): its table entries
plus the address the boxed slice lives at. -/
structure CtrlDesc where
  addr : Nat
  descs : List Desc
deriving DecidableEq

/-- Modelled from the spec: a `BufferToken` bundling an optional send-side
and an optional receive-side buffer. -/
structure BufferToken where
  send_buff : Option Buffer
  recv_buff : Option Buffer
deriving DecidableEq

/-- Modelled from the spec: a `TransferToken<virtq::Desc>` wrapping a
`BufferToken`, an optional indirect control table, and the completion
endpoint (`await_queue`), modelled as a flag telling whether an endpoint is
registered. -/
structure TransferToken where
  ctrl_desc : Option CtrlDesc
  buff_tkn : BufferToken
  await_queue : Bool
deriving DecidableEq

/-- One element of the used ring as the device writes it:
`{id:u32, len:u32}`. -/
structure UsedElem where
  id : Nat
  len : Nat
deriving DecidableEq

/-- State of `DescrRing` (split.rs): the consumer index of the used ring, the
token tracking table, the MemPool's free-ID store (`mem_pool.pool`, a `Vec`
popped from the back), the descriptor table and the available ring
(`ring` array plus producer `idx`), and the device-owned used ring (`ring`
array plus `idx`).  Notification flag fields are not modelled (no claim
concerns them). -/
structure DescrRing where
  read_idx : Nat
  token_ring : List (Option TransferToken)
  pool : List Nat
  descr_table : List Desc
  avail_ring : List Nat
  avail_idx : Nat
  used_ring : List UsedElem
  used_idx : Nat
deriving DecidableEq

/-- Modelled from the spec: drawing a free ID from the MemPool
(`mem_pool.pool.borrow_mut().pop()`); `Vec::pop` removes the last element. -/
def poolPop (l : List Nat) : Option (Nat × List Nat) :=
  match l.getLast? with
  | none => none
  | some x => some (x, l.dropLast)

/-- Modelled from the spec: `MemPool::ret_id` marks an ID free again by
pushing it back onto the free store. -/
def ret_id (l : List Nat) (id : Nat) : List Nat := l ++ [id]

/-- Panics and error returns of `DescrRing::push`. -/
inductive PushErr where
  | noDescrAvail
  | emptyTokenPanic
deriving DecidableEq

/-- The receive-side chain of a token (`recv_buff`'s `as_slice`, or empty
when absent). -/
def recvDescrList (tkn : TransferToken) : List MemDescr :=
  match tkn.buff_tkn.recv_buff with
  | some b => b.desc_lst
  | none => []

/-- The send-side chain of a token. -/
def sendDescrList (tkn : TransferToken) : List MemDescr :=
  match tkn.buff_tkn.send_buff with
  | some b => b.desc_lst
  | none => []

/-- `rev_recv_desc_iter` of `DescrRing::push`: the receive descriptors in
reverse, flags `WRITE`; `next` starts at 0 and is fixed up while writing. -/
def revRecvDescs (tkn : TransferToken) : List Desc :=
  (recvDescrList tkn).reverse.map fun m =>
    { addr := virt_to_phys m.ptr, len := m.len, flags := DescF.WRITE, next := 0 }

/-- `rev_send_desc_iter` of `DescrRing::push`: the send descriptors in
reverse, flags empty. -/
def revSendDescs (tkn : TransferToken) : List Desc :=
  (sendDescrList tkn).reverse.map fun m =>
    { addr := virt_to_phys m.ptr, len := m.len, flags := 0, next := 0 }

/-- The reversed descriptor sequence `rev_all_desc_iter` that
`DescrRing::push` builds for a direct chain: the reversed receive
descriptors chained with the reversed send descriptors. -/
def revAllDescs (tkn : TransferToken) : List Desc :=
  revRecvDescs tkn ++ revSendDescs tkn

/-- The loop of `DescrRing::push` over the remaining reversed descriptors:
each descriptor gets `NEXT` added to its flags and `next` pointing at the
previously written slot, then a fresh slot is drawn from the pool and the
descriptor is written there.  Returns the updated pool and table and, on
success, the slot of the last write (the head of the chain). -/
def pushRest : List Desc → Nat → List Nat → List Desc →
    (List Nat × List Desc) × Except PushErr Nat
  | [], prev, pool, t => ((pool, t), Except.ok prev)
  | d :: rest, prev, pool, t =>
    let d' : Desc := { d with flags := d.flags ||| DescF.NEXT, next := prev }
    match poolPop pool with
    | none => ((pool, t), Except.error PushErr.noDescrAvail)
    | some (i, pool') => pushRest rest i pool' (t.set i d')

/-- The chain-building part of `DescrRing::push` (split.rs lines 56-141):
either a single `INDIRECT` descriptor for a token carrying a control table,
or the reversed direct chain.  Operates on the pool and the descriptor
table and returns the head slot on success. -/
def DescrRing.pushChain (s : DescrRing) (tkn : TransferToken) :
    (List Nat × List Desc) × Except PushErr Nat :=
  match tkn.ctrl_desc with
  | some ctrl =>
    let d : Desc := { addr := virt_to_phys ctrl.addr, len := 16 * ctrl.descs.length,
                      flags := DescF.INDIRECT, next := 0 }
    match poolPop s.pool with
    | none => ((s.pool, s.descr_table), Except.error PushErr.noDescrAvail)
    | some (i, pool') => ((pool', s.descr_table.set i d), Except.ok i)
  | none =>
    match revAllDescs tkn with
    | [] => ((s.pool, s.descr_table), Except.error PushErr.emptyTokenPanic)
    | d0 :: rest =>
      match poolPop s.pool with
      | none => ((s.pool, s.descr_table), Except.error PushErr.noDescrAvail)
      | some (i0, pool') => pushRest rest i0 pool' (s.descr_table.set i0 d0)

/-- The publication tail of `DescrRing::push` (split.rs lines 143-153):
store the token at the head slot, write the head slot index into
`avail_ring[idx % len]`, bump `avail.idx` by one wrapping 16 bits, and
return the new index. -/
def publish (s : DescrRing) (head : Nat) (tkn : TransferToken) :
    DescrRing × Except PushErr Nat :=
  let s := { s with token_ring := s.token_ring.set head (some tkn) }
  let len := s.token_ring.length
  let idx := s.avail_idx
  let s := { s with avail_ring := s.avail_ring.set (idx % len) head }
  let next_idx := (idx + 1) % 65536
  ({ s with avail_idx := next_idx }, Except.ok next_idx)

/-- `DescrRing::push`: build the descriptor chain, then publish it.  The
state is returned in both outcomes because the Rust function mutates
`self` in place; on an error return the already performed pool draws and
table writes remain. -/
def DescrRing.push (s : DescrRing) (tkn : TransferToken) :
    DescrRing × Except PushErr Nat :=
  match s.pushChain tkn with
  | ((pool', table'), Except.error e) =>
    ({ s with pool := pool', descr_table := table' }, Except.error e)
  | ((pool', table'), Except.ok index) =>
    publish { s with pool := pool', descr_table := table' } index tkn

/-- The descriptor chain as the device sees it: start at a slot of the
table and follow `next` while the flags contain `NEXT`.  The fuel bounds
the walk (a well-formed chain terminates within the fuel used below). -/
def walkChain (t : List Desc) : Nat → Nat → List Desc
  | 0, _ => []
  | Nat.succ f, i =>
    if (tget t i).flags &&& DescF.NEXT ≠ 0 then tget t i :: walkChain t f (tget t i).next
    else [tget t i]

/-- The slots such a walk visits. -/
def walkPath (t : List Desc) : Nat → Nat → List Nat
  | 0, _ => []
  | Nat.succ f, i =>
    if (tget t i).flags &&& DescF.NEXT ≠ 0 then i :: walkPath t f (tget t i).next
    else [i]

/-- The panic of `DescrRing::poll` when a used element's id has no tracked
token (`.expect(...)`). -/
inductive PollErr where
  | missingToken
deriving DecidableEq

/-- The inner loop of `DescrRing::poll`: starting from `id_ret_idx`, return
the current slot ID to the MemPool, read that slot of the descriptor table,
and continue at its `next` while its flags contain `NEXT`.  The Rust loop is
unbounded; a fuel argument cuts off the (otherwise diverging) walk through a
cyclic table.  Returns the updated pool and the list of returned IDs. -/
def chainRet (t : List Desc) : Nat → Nat → List Nat → List Nat × List Nat
  | 0, _, pool => (pool, [])
  | Nat.succ fuel, i, pool =>
    let pool' := ret_id pool i
    let d := tget t i
    if d.flags &&& DescF.NEXT ≠ 0 then
      let r := chainRet t fuel d.next pool'
      (r.1, i :: r.2)
    else (pool', [i])

/-- Modelled from the spec: `BufferToken::restr_size(None, Some(len))`
truncates the logical length of the receive buffer to the number of bytes
the device wrote (the method lives in the module that is not in the source
excerpt). -/
def restr_recv (b : BufferToken) (len : Nat) : BufferToken :=
  { b with recv_buff := b.recv_buff.map fun buf => { buf with len := len } }

/-- One iteration plus the loop of `DescrRing::poll` (split.rs lines
156-202), with fuel for the outer `loop`.  Besides the final ring state it
returns the `BufferToken`s delivered to their `await_queue` endpoints in
delivery order, and the per-element lists of slot IDs returned to the
MemPool. -/
def pollLoop : Nat → DescrRing →
    Except PollErr (DescrRing × List BufferToken × List (List Nat))
  | 0, s => Except.ok (s, [], [])
  | Nat.succ fuel, s =>
    if s.read_idx = s.used_idx then Except.ok (s, [], [])
    else
      let cur_ring_index := s.read_idx % s.token_ring.length
      let used_elem := (s.used_ring[cur_ring_index]?).getD { id := 0, len := 0 }
      match (s.token_ring[used_elem.id]?).getD none with
      | none => Except.error PollErr.missingToken
      | some tkn =>
        let s := { s with token_ring := s.token_ring.set used_elem.id none }
        let btk :=
          if (tkn.buff_tkn.recv_buff).isSome then restr_recv tkn.buff_tkn used_elem.len
          else tkn.buff_tkn
        let delivered := if tkn.await_queue then [btk] else []
        let walk := chainRet s.descr_table (s.descr_table.length + 1) cur_ring_index s.pool
        let s := { s with pool := walk.1, read_idx := (s.read_idx + 1) % 65536 }
        match pollLoop fuel s with
        | Except.error e => Except.error e
        | Except.ok (s', ds, idss) => Except.ok (s', delivered ++ ds, walk.2 :: idss)

/-- `DescrRing::poll`: drain the used ring until `read_idx` catches up with
`used.idx`.  The number of pending elements bounds the fuel for the loop. -/
def DescrRing.poll (s : DescrRing) :
    Except PollErr (DescrRing × List BufferToken × List (List Nat)) :=
  pollLoop ((s.used_idx + 65536 - s.read_idx % 65536) % 65536) s

/-- Modelled from the spec: the `BufferType` upper drivers pass to the
dispatch methods (direct or indirect chains). -/
inductive BufferType where
  | direct
  | indirect
deriving DecidableEq

/-- Modelled from the spec: the completion endpoint handed to
`dispatch_batch_await`, opaque to the queue. -/
structure BufferTokenSender where
  chan : Nat
deriving DecidableEq

/-- Outcome of a call that may panic instead of returning: `panics` models
`unimplemented!()`, `returns` carries the value an implementation would
return. -/
inductive PanicOr (α : Type) where
  | panics
  | returns (a : α)
deriving DecidableEq

/-- `SplitVq::dispatch_batch` (split.rs lines 243-249): the body is
`unimplemented!()`, so every call panics. -/
def SplitVq.dispatch_batch (_tkns : List (BufferToken × BufferType)) (_notif : Bool) :
    PanicOr (Except VirtqError Unit) :=
  PanicOr.panics

/-- `SplitVq::dispatch_batch_await` (split.rs lines 251-258): the body is
`unimplemented!()`, so every call panics. -/
def SplitVq.dispatch_batch_await (_tkns : List (BufferToken × BufferType))
    (_await_queue : BufferTokenSender) (_notif : Bool) :
    PanicOr (Except VirtqError Unit) :=
  PanicOr.panics

/-- `SplitVq::create_indirect_ctrl` builds one table entry per `MemDescr`:
flags are the side's incomplete flags with `NEXT` added, `next` points at the
following entry (the iterator is zipped with `1u16..`). -/
def mkIndirectTable : List (MemDescr × Nat) → Nat → List Desc
  | [], _ => []
  | (m, f) :: rest, i =>
    { addr := virt_to_phys m.ptr, len := m.len, flags := f ||| DescF.NEXT, next := i + 1 }
      :: mkIndirectTable rest (i + 1)

/-- The descriptor list of an optional side (an absent side contributes no
descriptors to the iterators). -/
def optDescrList (o : Option (List MemDescr)) : List MemDescr :=
  match o with
  | some l => l
  | none => []

/-- The zipped `(MemDescr, incomplete flags)` sequence
`send_desc_iter.chain(recv_desc_iter)` of `SplitVq::create_indirect_ctrl`:
send descriptors with empty flags before receive descriptors with
`WRITE`. -/
def splitCtrlPairs (send recv : Option (List MemDescr)) : List (MemDescr × Nat) :=
  (optDescrList send).map (fun m => (m, 0)) ++
    (optDescrList recv).map (fun m => (m, DescF.WRITE))

/-- `SplitVq::create_indirect_ctrl` (split.rs lines 387-418): send
descriptors (flags empty) chained before receive descriptors (flags
`WRITE`), linked `i -> i+1`; the last entry has `NEXT` removed (bitflags
difference, here a mask clearing bit 0) and `next = 0`; an empty table is
`BufferNotSpecified`. -/
def SplitVq.create_indirect_ctrl (send recv : Option (List MemDescr)) :
    Except VirtqError (List Desc) :=
  match (mkIndirectTable (splitCtrlPairs send recv) 0).getLast? with
  | none => Except.error VirtqError.bufferNotSpecified
  | some last =>
    Except.ok ((mkIndirectTable (splitCtrlPairs send recv) 0).dropLast
      ++ [{ last with flags := last.flags &&& 0xFFFE, next := 0 }])

end Split

namespace Packed

/-- Modelled from the spec: the `DescrFlags` constants of the shared
virtqueue module (not in the source excerpt); VirtIO flag values, consistent
with the split side's `virtq::DescF` and with `WrapCount::as_flags` using
bits 7 and 15. -/
def DescrFlags.VIRTQ_DESC_F_NEXT : Nat := 1

/-- Modelled from the spec: the `WRITE` descriptor flag. -/
def DescrFlags.VIRTQ_DESC_F_WRITE : Nat := 2

/-- Modelled from the spec: the `INDIRECT` descriptor flag. -/
def DescrFlags.VIRTQ_DESC_F_INDIRECT : Nat := 4

/-- A newtype of bool used for the packed queue's wrap counter
(packed.rs `struct WrapCount(bool)`). -/
structure WrapCount where
  val : Bool
deriving DecidableEq

/-- `WrapCount::new`: initialized to true, i.e. 1. -/
def WrapCount.new : WrapCount := { val := true }

/-- `WrapCount::wrap`: toggles the wrap count to the respective other
value. -/
def WrapCount.wrap (w : WrapCount) : WrapCount :=
  if w.val = false then { val := true } else { val := false }

/-- `WrapCount::as_flags`: sets the avail flag (bit 7) to match the wrap
count and the used flag (bit 15) to not match it. -/
def WrapCount.as_flags (w : WrapCount) : Nat :=
  if w.val = true then 1 <<< 7 else 1 <<< 15

/-- A 16-byte packed-layout descriptor (packed.rs `struct Descriptor`):
`address:u64, len:u32, buff_id:u16, flags:u16`, all modelled as `Nat`. -/
structure Descriptor where
  address : Nat
  len : Nat
  buff_id : Nat
  flags : Nat
deriving DecidableEq

/-- `Descriptor::new`. -/
def Descriptor.new (add : Nat) (len : Nat) (id : Nat) (flags : Nat) : Descriptor :=
  { address := add, len := len, buff_id := id, flags := flags }

/-- Write `count` little-endian bytes of `n` into `bytes` starting at
position `cnt`, advancing the cursor — the pattern of the address, length
and buff_id copy loops of `Descriptor::to_le_bytes`. -/
def writeLeBytes (bytes : List Nat) (cnt : Nat) (n : Nat) : Nat → List Nat × Nat
  | 0 => (bytes, cnt)
  | Nat.succ k =>
    writeLeBytes (bytes.set cnt (n % 256)) (cnt + 1) (n / 256) k

/-- The flags copy loop of `Descriptor::to_le_bytes`: the source loop writes
both flag bytes without advancing `desc_bytes_cnt`, so each byte lands at the
same position. -/
def writeLeBytesNoAdvance (bytes : List Nat) (cnt : Nat) (n : Nat) : Nat → List Nat
  | 0 => bytes
  | Nat.succ k =>
    writeLeBytesNoAdvance (bytes.set cnt (n % 256)) cnt (n / 256) k

/-- `Descriptor::to_le_bytes` (packed.rs lines 378-417): serialize into a
zeroed 16-byte array: address at 0..8, len at 8..12, buff_id at 12..14, then
the flags loop — which does not advance the cursor, so both flag bytes are
written at offset 14 and offset 15 keeps its initial 0. -/
def Descriptor.to_le_bytes (d : Descriptor) : List Nat :=
  let bytes : List Nat := List.replicate 16 0
  let r := writeLeBytes bytes 0 d.address 8
  let r := writeLeBytes r.1 r.2 d.len 4
  let r := writeLeBytes r.1 r.2 d.buff_id 2
  writeLeBytesNoAdvance r.1 r.2 d.flags 2

/-- The 16-byte little-endian wire encoding the spec describes for a packed
descriptor: address in bytes 0-7, len in bytes 8-11, buff_id in bytes 12-13,
flags in bytes 14-15.  Stated from the spec's words for comparison with
`Descriptor.to_le_bytes`. -/
def descLeBytesSpec (d : Descriptor) : List Nat :=
  ((List.range 8).map fun i => d.address / 256 ^ i % 256)
    ++ ((List.range 4).map fun i => d.len / 256 ^ i % 256)
    ++ ((List.range 2).map fun i => d.buff_id / 256 ^ i % 256)
    ++ ((List.range 2).map fun i => d.flags / 256 ^ i % 256)

/-- State of `DescriptorRing` (packed.rs): the descriptor ring, the token
reference ring (raw `*mut TransferToken` pointers modelled as addresses,
0 for null), and the control variables `write_index`, `capacity`,
`poll_index`, `wrap_count`. -/
structure DescriptorRing where
  ring : List Descriptor
  tkn_ref_ring : List Nat
  write_index : Nat
  capacity : Nat
  poll_index : Nat
  wrap_count : WrapCount
deriving DecidableEq

/-- `DescriptorRing::new`: a zeroed ring of `size` descriptors, a null token
reference ring of `size + 1` entries (IDs run from 1 so index 0 is unused),
write and poll indices 0, capacity `size`, wrap count 1. -/
def DescriptorRing.new (size : Nat) : DescriptorRing :=
  { ring := List.replicate size { address := 0, len := 0, buff_id := 0, flags := 0 }
    tkn_ref_ring := List.replicate (size + 1) 0
    write_index := 0
    capacity := size
    poll_index := 0
    wrap_count := WrapCount.new }

/-- The write controller of the packed ring (packed.rs `struct WriteCtrl`),
bundled with the ring it mutates through. -/
structure WriteCtrl where
  start : Nat
  position : Nat
  modulo : Nat
  wrap_at_init : WrapCount
  buff_id : Nat
  desc_ring : DescriptorRing
deriving DecidableEq

/-- `DescriptorRing::get_write_ctrler`. -/
def DescriptorRing.get_write_ctrler (s : DescriptorRing) : WriteCtrl :=
  { start := s.write_index
    position := s.write_index
    modulo := s.ring.length
    wrap_at_init := s.wrap_count
    buff_id := 0
    desc_ring := s }

/-- `WriteCtrl::incrmt` (packed.rs lines 299-312): asserts remaining
capacity (`none` models the `assert!` panic), decrements it, wraps the
ring's wrap counter when the position wraps from the last slot to 0, and
advances both `write_index` and `position` modulo the ring size. -/
def WriteCtrl.incrmt (c : WriteCtrl) : Option WriteCtrl :=
  if c.desc_ring.capacity = 0 then none
  else
    let r := { c.desc_ring with capacity := c.desc_ring.capacity - 1 }
    let r := if c.position + 1 = c.modulo then { r with wrap_count := r.wrap_count.wrap } else r
    let r := { r with write_index := (r.write_index + 1) % c.modulo }
    some { c with desc_ring := r, position := (c.position + 1) % c.modulo }

/-- `WriteCtrl::write_desc` (packed.rs lines 318-348): writes a descriptor
at the current position.  At the start position the descriptor carries the
`MemDescr`'s own ID, the avail/used bits are masked away (`flags & 0xFEFE`)
and deferred to `make_avail`; at later positions the descriptor carries the
controller's `buff_id` and the masked flags are combined with the avail/used
bits of the ring's current wrap count. -/
def WriteCtrl.write_desc (c : WriteCtrl) (mem_desc : MemDescr) (flags : Nat) :
    Option WriteCtrl :=
  if c.start = c.position then
    let d : Descriptor := { address := mem_desc.ptr, len := mem_desc.len,
                            buff_id := mem_desc.id, flags := flags &&& 0xFEFE }
    let c := { c with desc_ring := { c.desc_ring with ring := c.desc_ring.ring.set c.position d }
                      buff_id := mem_desc.id }
    c.incrmt
  else
    let d : Descriptor := { address := mem_desc.ptr, len := mem_desc.len,
                            buff_id := c.buff_id,
                            flags := (flags &&& 0xFEFE) ||| c.desc_ring.wrap_count.as_flags }
    let c := { c with desc_ring := { c.desc_ring with ring := c.desc_ring.ring.set c.position d } }
    c.incrmt

/-- `WriteCtrl::make_avail` (packed.rs lines 350-357): record the pinned
token's address in the token reference ring at `buff_id`, then or the
avail/used bits of the wrap count at the first write into the head
descriptor's flags. -/
def WriteCtrl.make_avail (c : WriteCtrl) (raw_tkn : Nat) : WriteCtrl :=
  let r := { c.desc_ring with
             tkn_ref_ring := c.desc_ring.tkn_ref_ring.set c.buff_id raw_tkn }
  let old := (r.ring[c.start]?).getD { address := 0, len := 0, buff_id := 0, flags := 0 }
  let r := { r with ring := r.ring.set c.start { old with flags := old.flags ||| c.wrap_at_init.as_flags } }
  { c with desc_ring := r }

/-- `TransferState`: Ready, Processing or Finished. -/
inductive TransferState where
  | ready
  | processing
  | finished
deriving DecidableEq

/-- The packed-era `Buffer` enum: Single, Multiple or Indirect chains of
`MemDescr`; `len` is total bytes and `next_write` the append cursor. -/
inductive Buffer where
  | single (desc_lst : List MemDescr) (len : Nat) (next_write : Nat)
  | multiple (desc_lst : List MemDescr) (len : Nat) (next_write : Nat)
  | indirect (desc_lst : List MemDescr) (ctrl_desc : MemDescr) (len : Nat) (next_write : Nat)
deriving DecidableEq

/-- `Buffer::as_slice`-like view: the chain of `MemDescr`. -/
def Buffer.as_slice : Buffer → List MemDescr
  | Buffer.single desc_lst _ _ => desc_lst
  | Buffer.multiple desc_lst _ _ => desc_lst
  | Buffer.indirect desc_lst _ _ _ => desc_lst

/-- `Buffer::get_ctrl_desc`: only the Indirect variant carries a control
descriptor. -/
def Buffer.get_ctrl_desc : Buffer → Option MemDescr
  | Buffer.single _ _ _ => none
  | Buffer.multiple _ _ _ => none
  | Buffer.indirect _ ctrl _ _ => some ctrl

/-- The packed-era `BufferToken`. -/
structure BufferToken where
  send_buff : Option Buffer
  recv_buff : Option Buffer
  ret_send : Bool
  ret_recv : Bool
  reusable : Bool
deriving DecidableEq

/-- The packed-era `TransferToken`; `await_queue` is modelled as a flag
telling whether a completion endpoint is registered. -/
structure TransferToken where
  state : TransferState
  buff_tkn : Option BufferToken
  await_queue : Bool
deriving DecidableEq

/-- Modelled from the spec: `BufferToken::len` (defined in the module that
is not in the source excerpt) is the number of descriptor slots the
transfer needs in the ring: one per direct chain element, a single slot for
an indirect chain. -/
def BufferToken.len (b : BufferToken) : Nat :=
  let side : Option Buffer → Nat := fun ob =>
    match ob with
    | none => 0
    | some (Buffer.single desc_lst _ _) => desc_lst.length
    | some (Buffer.multiple desc_lst _ _) => desc_lst.length
    | some (Buffer.indirect _ _ _ _) => 1
  match b.send_buff, b.recv_buff with
  | some (Buffer.indirect _ _ _ _), some (Buffer.indirect _ _ _ _) => 1
  | s, r => side s + side r

/-- The panics `DescriptorRing::push` can hit: the `unwrap` of a missing
`BufferToken`, the capacity `assert!`, the mixed indirect/direct panics, the
empty-transfer panic, and the capacity assertion inside `incrmt`. -/
inductive PackedPanic where
  | noneUnwrap
  | capacityAssert
  | mixedBuffers
  | emptyTransfer
deriving DecidableEq

/-- Lift the `Option` result of a write (whose `none` is the `incrmt`
capacity assertion) into the push's panic monad. -/
def liftWrite (o : Option WriteCtrl) : Except PackedPanic WriteCtrl :=
  match o with
  | none => Except.error PackedPanic.capacityAssert
  | some c => Except.ok c

/-- The send-side loop of `DescriptorRing::push` over a direct chain:
descriptors carry `NEXT` while more than one buffer element remains, the
last carries no flags; `buff_len` counts the remaining elements across both
sides. -/
def writeSendLoop : List MemDescr → Nat → WriteCtrl →
    Except PackedPanic (WriteCtrl × Nat)
  | [], buff_len, c => Except.ok (c, buff_len)
  | m :: rest, buff_len, c =>
    let flags := if buff_len > 1 then DescrFlags.VIRTQ_DESC_F_NEXT else 0
    match liftWrite (c.write_desc m flags) with
    | Except.error e => Except.error e
    | Except.ok c' => writeSendLoop rest (buff_len - 1) c'

/-- The recv-side loop of `DescriptorRing::push` over a direct chain: while
more than one element remains the flags are
`VIRTQ_DESC_F_NEXT & VIRTQ_DESC_F_WRITE` — the source's bitwise AND, which
is 0 — and the last element gets `VIRTQ_DESC_F_WRITE`. -/
def writeRecvLoop : List MemDescr → Nat → WriteCtrl →
    Except PackedPanic (WriteCtrl × Nat)
  | [], buff_len, c => Except.ok (c, buff_len)
  | m :: rest, buff_len, c =>
    let flags :=
      if buff_len > 1 then DescrFlags.VIRTQ_DESC_F_NEXT &&& DescrFlags.VIRTQ_DESC_F_WRITE
      else DescrFlags.VIRTQ_DESC_F_WRITE
    match liftWrite (c.write_desc m flags) with
    | Except.error e => Except.error e
    | Except.ok c' => writeRecvLoop rest (buff_len - 1) c'

/-- `DescriptorRing::push` (packed.rs lines 125-229): pin the token (its
pinned address is the `tknAddr` argument), assert the chain fits the
remaining capacity, write the descriptors through a `WriteCtrl` — indirect
chains as a single `INDIRECT` descriptor — then `make_avail` the head and
mark the token `Processing`.  Returns the updated ring and token. -/
def DescriptorRing.push (s : DescriptorRing) (tkn : TransferToken) (tknAddr : Nat) :
    Except PackedPanic (DescriptorRing × TransferToken) :=
  match tkn.buff_tkn with
  | none => Except.error PackedPanic.noneUnwrap
  | some btk =>
    if btk.len ≤ s.capacity then
      let ctrl := s.get_write_ctrler
      let written : Except PackedPanic WriteCtrl :=
        match btk.send_buff, btk.recv_buff with
        | some send_buff, some recv_buff =>
          match send_buff.get_ctrl_desc, recv_buff.get_ctrl_desc with
          | some ctrl_desc, some _ =>
            liftWrite (ctrl.write_desc ctrl_desc DescrFlags.VIRTQ_DESC_F_INDIRECT)
          | none, none =>
            let buff_len := send_buff.as_slice.length + recv_buff.as_slice.length
            match writeSendLoop send_buff.as_slice buff_len ctrl with
            | Except.error e => Except.error e
            | Except.ok (c, remaining) =>
              match writeRecvLoop recv_buff.as_slice remaining c with
              | Except.error e => Except.error e
              | Except.ok (c, _) => Except.ok c
          | none, some _ => Except.error PackedPanic.mixedBuffers
          | some _, none => Except.error PackedPanic.mixedBuffers
        | some send_buff, none =>
          match send_buff.get_ctrl_desc with
          | some ctrl_desc =>
            liftWrite (ctrl.write_desc ctrl_desc DescrFlags.VIRTQ_DESC_F_INDIRECT)
          | none =>
            match writeSendLoop send_buff.as_slice send_buff.as_slice.length ctrl with
            | Except.error e => Except.error e
            | Except.ok (c, _) => Except.ok c
        | none, some recv_buff =>
          match recv_buff.get_ctrl_desc with
          | some ctrl_desc =>
            liftWrite (ctrl.write_desc ctrl_desc DescrFlags.VIRTQ_DESC_F_INDIRECT)
          | none =>
            match writeRecvLoop recv_buff.as_slice recv_buff.as_slice.length ctrl with
            | Except.error e => Except.error e
            | Except.ok (c, _) => Except.ok c
        | none, none => Except.error PackedPanic.emptyTransfer
      match written with
      | Except.error e => Except.error e
      | Except.ok c =>
        let c := c.make_avail tknAddr
        Except.ok (c.desc_ring, { tkn with state := TransferState.processing })
    else Except.error PackedPanic.capacityAssert

/-- `DescriptorRing::poll` (packed.rs lines 114-119): the body is
`unimplemented!()`, so every call panics; no completion processing, capacity
restoration or `poll_index` advance happens. -/
def DescriptorRing.poll (_s : DescriptorRing) :
    Split.PanicOr (DescriptorRing × Option TransferToken) :=
  Split.PanicOr.panics

/-- The table entries `PackedVq::create_indirect_ctrl` (packed.rs lines
1888-1986) serializes, in the order the source writes them: send
descriptors (flags 0) always before receive descriptors (flags
`VIRTQ_DESC_F_WRITE`); `buff_id` is 0 throughout; neither side given is
`BufferNotSpecified`. -/
def PackedVq.create_indirect_ctrl_entries (send recv : Option (List MemDescr)) :
    Except VirtqError (List Descriptor) :=
  match send, recv with
  | none, none => Except.error VirtqError.bufferNotSpecified
  | none, some recv_desc_lst =>
    Except.ok (recv_desc_lst.map fun d =>
      Descriptor.new d.ptr d.len 0 DescrFlags.VIRTQ_DESC_F_WRITE)
  | some send_desc_lst, none =>
    Except.ok (send_desc_lst.map fun d => Descriptor.new d.ptr d.len 0 0)
  | some send_desc_lst, some recv_desc_lst =>
    Except.ok ((send_desc_lst.map fun d => Descriptor.new d.ptr d.len 0 0)
      ++ (recv_desc_lst.map fun d =>
        Descriptor.new d.ptr d.len 0 DescrFlags.VIRTQ_DESC_F_WRITE))

/-- The bytes `PackedVq::create_indirect_ctrl` writes into the pulled
control `MemDescr`: the concatenated `to_le_bytes` images of its entries. -/
def PackedVq.create_indirect_ctrl_bytes (send recv : Option (List MemDescr)) :
    Except VirtqError (List Nat) :=
  match PackedVq.create_indirect_ctrl_entries send recv with
  | Except.error e => Except.error e
  | Except.ok entries => Except.ok (entries.map Descriptor.to_le_bytes).flatten

/-- Iterated `WriteCtrl.incrmt`, `none` as soon as one step hits the
capacity assertion. -/
def incrmtIter : Nat → WriteCtrl → Option WriteCtrl
  | 0, c => some c
  | Nat.succ k, c =>
    match c.incrmt with
    | none => none
    | some c' => incrmtIter k c'

end Packed

/-- Projection of an `Except` onto its success value. -/
def exOk? {ε α : Type} : Except ε α → Option α
  | Except.ok a => some a
  | Except.error _ => none

/-! Concrete states and tokens used to evaluate the models on the scenarios
that settle the claims. -/

/-- A split ring of size 8 whose MemPool has a single free ID left. -/
def c1Ring : Split.DescrRing :=
  { read_idx := 0
    token_ring := List.replicate 8 none
    pool := [3]
    descr_table := List.replicate 8 Split.dflt
    avail_ring := List.replicate 8 0
    avail_idx := 0
    used_ring := List.replicate 8 { id := 0, len := 0 }
    used_idx := 0 }

/-- A direct transfer token whose send chain needs two descriptor slots. -/
def c1Tkn : Split.TransferToken :=
  { ctrl_desc := none
    buff_tkn :=
      { send_buff := some { desc_lst := [{ ptr := 100, len := 16, id := 0 },
                                         { ptr := 200, len := 16, id := 0 }], len := 32 }
        recv_buff := none }
    await_queue := false }

/-- A fresh packed ring of size 4. -/
def c2Ring : Packed.DescriptorRing := Packed.DescriptorRing.new 4

/-- A recv-only direct transfer with a two-element chain. -/
def c2Tkn : Packed.TransferToken :=
  { state := Packed.TransferState.ready
    buff_tkn := some
      { send_buff := none
        recv_buff := some (Packed.Buffer.multiple
          [{ ptr := 100, len := 16, id := 1 }, { ptr := 200, len := 16, id := 2 }] 32 0)
        ret_send := false
        ret_recv := true
        reusable := true }
    await_queue := false }

/-- The packed ring expected after pushing `c2Tkn` into `c2Ring` with the
token pinned at address 55. -/
def c2RingAfter : Packed.DescriptorRing :=
  { ring := [{ address := 100, len := 16, buff_id := 1, flags := 128 },
             { address := 200, len := 16, buff_id := 1, flags := 130 },
             { address := 0, len := 0, buff_id := 0, flags := 0 },
             { address := 0, len := 0, buff_id := 0, flags := 0 }]
    tkn_ref_ring := [0, 55, 0, 0, 0]
    write_index := 2
    capacity := 2
    poll_index := 0
    wrap_count := Packed.WrapCount.new }

/-- A fresh split ring of size 4 with free IDs 0..3. -/
def c3Ring0 : Split.DescrRing :=
  { read_idx := 0
    token_ring := List.replicate 4 none
    pool := [0, 1, 2, 3]
    descr_table := List.replicate 4 Split.dflt
    avail_ring := List.replicate 4 0
    avail_idx := 0
    used_ring := List.replicate 4 { id := 0, len := 0 }
    used_idx := 0 }

/-- First dispatched token (single-descriptor send chain), with an
await queue registered. -/
def c3TknA : Split.TransferToken :=
  { ctrl_desc := none
    buff_tkn := { send_buff := some { desc_lst := [{ ptr := 100, len := 16, id := 0 }], len := 16 }
                  recv_buff := none }
    await_queue := true }

/-- Second dispatched token (single-descriptor send chain). -/
def c3TknB : Split.TransferToken :=
  { ctrl_desc := none
    buff_tkn := { send_buff := some { desc_lst := [{ ptr := 200, len := 16, id := 0 }], len := 16 }
                  recv_buff := none }
    await_queue := true }

/-- The ring after dispatching `c3TknA` (slot 3) then `c3TknB` (slot 2),
with the device having marked both used in reverse order: used ring
`[{id: 2}, {id: 3}]`, `used.idx = 2`. -/
def c3Ring3 : Split.DescrRing :=
  { (((c3Ring0.push c3TknA).1).push c3TknB).1 with
    used_ring := [{ id := 2, len := 16 }, { id := 3, len := 16 },
                  { id := 0, len := 0 }, { id := 0, len := 0 }]
    used_idx := 2 }

/-- A concrete write controller on a fresh packed ring of size 2. -/
def c7c : Packed.WriteCtrl := (Packed.DescriptorRing.new 2).get_write_ctrler

/-- The controller expected after one `incrmt` step from `c7c`. -/
def c7cNext : Packed.WriteCtrl :=
  { start := 0
    position := 1
    modulo := 2
    wrap_at_init := Packed.WrapCount.new
    buff_id := 0
    desc_ring :=
      { ring := List.replicate 2 { address := 0, len := 0, buff_id := 0, flags := 0 }
        tkn_ref_ring := List.replicate 3 0
        write_index := 1
        capacity := 1
        poll_index := 0
        wrap_count := Packed.WrapCount.new } }

/-- A packed ring of size 4 whose capacity is exhausted (as after the
spec's scenario S2: four single-descriptor dispatches). -/
def c8Ring : Packed.DescriptorRing :=
  { Packed.DescriptorRing.new 4 with capacity := 0 }

/-- A send-only single-descriptor transfer. -/
def c8Tkn : Packed.TransferToken :=
  { state := Packed.TransferState.ready
    buff_tkn := some
      { send_buff := some (Packed.Buffer.single [{ ptr := 100, len := 16, id := 1 }] 16 0)
        recv_buff := none
        ret_send := true
        ret_recv := false
        reusable := true }
    await_queue := false }

/-- A buffer token with a two-element send chain, used against a ring with
capacity 1. -/
def c8BtkW : Packed.BufferToken :=
  { send_buff := some (Packed.Buffer.multiple
      [{ ptr := 100, len := 16, id := 1 }, { ptr := 200, len := 16, id := 2 }] 32 0)
    recv_buff := none
    ret_send := true
    ret_recv := false
    reusable := true }

/-- Transfer token wrapping `c8BtkW`. -/
def c8TknW : Packed.TransferToken :=
  { state := Packed.TransferState.ready
    buff_tkn := some c8BtkW
    await_queue := false }

/-- A packed ring of size 4 with one slot of capacity left. -/
def c8RingW : Packed.DescriptorRing :=
  { Packed.DescriptorRing.new 4 with capacity := 1 }

/-- A packed descriptor whose flags are `NEXT | WRITE` (= 3). -/
def c9Desc : Packed.Descriptor :=
  { address := 0, len := 0, buff_id := 0, flags := 3 }

/-- VirtIO's chain-ordering rule on a list of descriptor flag words: a
prefix of device-readable entries (`WRITE` clear) followed only by
device-writable entries (`WRITE` set). -/
def readsBeforeWrites (flags : List Nat) : Prop :=
  ∃ a b, flags = a ++ b ∧ (∀ f ∈ a, f &&& DescF.WRITE = 0) ∧
    (∀ f ∈ b, f &&& DescF.WRITE ≠ 0)

/-- A fresh split ring of size 4 used to exercise the chain-ordering
theorem. -/
def c4Ring : Split.DescrRing :=
  { read_idx := 0
    token_ring := List.replicate 4 none
    pool := [0, 1, 2, 3]
    descr_table := List.replicate 4 Split.dflt
    avail_ring := List.replicate 4 0
    avail_idx := 0
    used_ring := List.replicate 4 { id := 0, len := 0 }
    used_idx := 0 }

/-- A direct send+recv token (one descriptor each side). -/
def c4Tkn : Split.TransferToken :=
  { ctrl_desc := none
    buff_tkn :=
      { send_buff := some { desc_lst := [{ ptr := 100, len := 16, id := 0 }], len := 16 }
        recv_buff := some { desc_lst := [{ ptr := 200, len := 32, id := 0 }], len := 32 } }
    await_queue := false }

/-! ## Claim theorems -/

/-- C1: the claim says a split push failing with `NoDescrAvail` returns
every ID drawn during the call, leaving the pool's free-ID set unchanged.
The code does not roll back: pushing a two-descriptor chain into a ring
whose pool holds the single free ID 3 fails with `NoDescrAvail`, and the
drawn ID is never returned — the free-ID store ends empty instead of
`[3]`. -/
theorem c1_split_push_does_not_roll_back :
    (c1Ring.push c1Tkn).2 = Except.error Split.PushErr.noDescrAvail ∧
    (c1Ring.push c1Tkn).1.pool = [] ∧
    c1Ring.pool = [3] :=
  ⟨rfl, rfl, rfl⟩

/-- C2: the claim says every non-terminal device-writable descriptor of a
packed direct chain carries both `NEXT` and `WRITE`.  The code computes
`VIRTQ_DESC_F_NEXT & VIRTQ_DESC_F_WRITE` (a bitwise AND, which is 0): after
pushing a two-element recv chain the non-terminal head descriptor's flags
are only the avail bit (128), with neither `NEXT` nor `WRITE` set. -/
theorem c2_packed_nonterminal_recv_lacks_flags :
    Packed.DescriptorRing.push c2Ring c2Tkn 55
      = Except.ok (c2RingAfter, { c2Tkn with state := Packed.TransferState.processing }) ∧
    c2RingAfter.ring[0]? = some { address := 100, len := 16, buff_id := 1, flags := 128 } ∧
    (128 : Nat) &&& Packed.DescrFlags.VIRTQ_DESC_F_NEXT = 0 ∧
    (128 : Nat) &&& Packed.DescrFlags.VIRTQ_DESC_F_WRITE = 0 :=
  ⟨rfl, rfl, by decide, by decide⟩

/-- C3: the claim says poll returns exactly the slot IDs of the completed
token's descriptor chain, walked from the used element's id, also under
out-of-order completion.  The code starts the walk at
`read_idx % size` (the used-ring position) instead: with chains at slots 3
(token A) and 2 (token B) and used order `[b, a]`, poll delivers the tokens
correctly but returns slot IDs `[0]` and `[1]` to the pool, while the
chains walked from the used ids are `[2]` and `[3]`. -/
theorem c3_poll_returns_ring_position_ids :
    (exOk? c3Ring3.poll).map (fun r => (r.2.1, r.2.2))
      = some ([c3TknB.buff_tkn, c3TknA.buff_tkn], [[0], [1]]) ∧
    c3Ring3.token_ring[2]? = some (some c3TknB) ∧
    c3Ring3.token_ring[3]? = some (some c3TknA) ∧
    (Split.chainRet c3Ring3.descr_table 5 2 []).2 = [2] ∧
    (Split.chainRet c3Ring3.descr_table 5 3 []).2 = [3] ∧
    ([[0], [1]] : List (List Nat)) ≠ [[2], [3]] :=
  ⟨rfl, rfl, rfl, rfl, rfl, by decide⟩

/-- C5: the claim describes the packed queue's completion polling
(restoring capacity, advancing `poll_index`, delivering the token).  The
body of `DescriptorRing::poll` is `unimplemented!()`, so every call panics
and none of that happens. -/
theorem c5_packed_poll_unimplemented :
    ∀ s : Packed.DescriptorRing, s.poll = Split.PanicOr.panics :=
  fun _ => rfl

/-- C8 counterexample: the claim says a packed push whose chain exceeds the
remaining capacity fails with `NoDescrAvail`.  At capacity 0 with a
one-descriptor transfer, the call instead hits the capacity `assert!` and
panics; packed push has no error return at all. -/
theorem c8_counterexample_push_panics :
    Packed.DescriptorRing.push c8Ring c8Tkn 0
      = Except.error Packed.PackedPanic.capacityAssert :=
  rfl

/-- C9: the claim says `to_le_bytes` produces the 16-byte little-endian
encoding with flags in bytes 14-15.  The flags copy loop never advances the
write cursor, so both flag bytes land at offset 14 and the flags are lost:
a descriptor with flags 3 serializes to all zeros instead of having byte 14
equal to 3. -/
theorem c9_to_le_bytes_drops_flags :
    Packed.Descriptor.to_le_bytes c9Desc = List.replicate 16 0 ∧
    Packed.descLeBytesSpec c9Desc = [0, 0, 0, 0, 0, 0, 0, 0, 0, 0, 0, 0, 0, 0, 3, 0] ∧
    Packed.Descriptor.to_le_bytes c9Desc ≠ Packed.descLeBytesSpec c9Desc :=
  ⟨rfl, rfl, by decide⟩

/-- C10: `SplitVq::dispatch_batch` and `SplitVq::dispatch_batch_await` are
`unimplemented!()`: for every argument list they panic instead of enqueuing
the tokens or returning an error. -/
theorem c10_dispatch_batch_unimplemented :
    (∀ (tkns : List (Split.BufferToken × Split.BufferType)) (notif : Bool),
      Split.SplitVq.dispatch_batch tkns notif = Split.PanicOr.panics) ∧
    (∀ (tkns : List (Split.BufferToken × Split.BufferType))
       (sender : Split.BufferTokenSender) (notif : Bool),
      Split.SplitVq.dispatch_batch_await tkns sender notif = Split.PanicOr.panics) :=
  ⟨fun _ _ => rfl, fun _ _ _ => rfl⟩

/-- A successful pool pop takes the last element: the popped ID is a member
and the pool was the remainder with the ID appended. -/
theorem poolPop_spec {pool rest : List Nat} {i : Nat}
    (h : Split.poolPop pool = some (i, rest)) :
    i ∈ pool ∧ pool = rest ++ [i] := by
  unfold Split.poolPop at h
  cases hg : pool.getLast? with
  | none => rw [hg] at h; cases h
  | some x =>
    rw [hg] at h
    have hx := Option.some.inj h
    obtain ⟨hxi, hrest⟩ := Prod.mk.injEq .. ▸ hx
    subst hxi
    obtain ⟨ys, hys⟩ := List.getLast?_eq_some_iff.mp hg
    constructor
    · exact List.mem_of_getLast?_eq_some hg
    · rw [← hrest, hys, List.dropLast_concat]

/-- The head returned by the chain-writing loop is the starting slot or a
slot drawn from the pool. -/
theorem pushRest_head :
    ∀ (descs : List Split.Desc) (prev : Nat) (pool : List Nat) (t : List Split.Desc)
      {pool' : List Nat} {t' : List Split.Desc} {head : Nat},
      Split.pushRest descs prev pool t = ((pool', t'), Except.ok head) →
      head = prev ∨ head ∈ pool := by
  intro descs
  induction descs with
  | nil =>
    intro prev pool t pool' t' head h
    unfold Split.pushRest at h
    have := Prod.mk.injEq .. ▸ h
    exact Or.inl (Except.ok.inj this.2).symm
  | cons d rest ih =>
    intro prev pool t pool' t' head h
    unfold Split.pushRest at h
    cases hp : Split.poolPop pool with
    | none => rw [hp] at h; cases (Prod.mk.injEq .. ▸ h).2
    | some pr =>
      obtain ⟨i, pool1⟩ := pr
      rw [hp] at h
      obtain ⟨hi, hpl⟩ := poolPop_spec hp
      rcases ih i pool1 _ h with hh | hh
      · exact Or.inr (hh ▸ hi)
      · exact Or.inr (by rw [hpl]; exact List.mem_append_left _ hh)

/-- The head slot a successful `pushChain` returns was drawn from the
pool. -/
theorem pushChain_head {s : Split.DescrRing} {tkn : Split.TransferToken} {head : Nat}
    (h : (s.pushChain tkn).2 = Except.ok head) : head ∈ s.pool := by
  unfold Split.DescrRing.pushChain at h
  cases hc : tkn.ctrl_desc with
  | some ctrl =>
    rw [hc] at h
    cases hp : Split.poolPop s.pool with
    | none => rw [hp] at h; cases h
    | some pr =>
      obtain ⟨i, pool'⟩ := pr
      rw [hp] at h
      have hih := Except.ok.inj h
      exact hih ▸ (poolPop_spec hp).1
  | none =>
    rw [hc] at h
    cases hr : Split.revAllDescs tkn with
    | nil => rw [hr] at h; cases h
    | cons d0 rest =>
      rw [hr] at h
      cases hp : Split.poolPop s.pool with
      | none => rw [hp] at h; cases h
      | some pr =>
        obtain ⟨i0, pool'⟩ := pr
        rw [hp] at h
        obtain ⟨hi0, hpl⟩ := poolPop_spec hp
        have hsplit : Split.pushRest rest i0 pool' (s.descr_table.set i0 d0)
            = ((Split.pushRest rest i0 pool' (s.descr_table.set i0 d0)).1,
               Except.ok head) := by
          rw [← h]
        rcases pushRest_head rest i0 pool' _ hsplit with hh | hh
        · exact hh ▸ hi0
        · rw [hpl]; exact List.mem_append_left _ hh

/-- What `publish` does to the ring: bump `avail.idx` modulo 2^16 and
return the new value, store the token at the head slot, and write the head
slot into the available ring at the old index. -/
theorem publish_spec (s : Split.DescrRing) (head : Nat) (tkn : Split.TransferToken)
    (hh : head < s.token_ring.length)
    (hlen : s.avail_ring.length = s.token_ring.length) :
    (Split.publish s head tkn).1.avail_idx = (s.avail_idx + 1) % 65536 ∧
    (Split.publish s head tkn).2 = Except.ok ((s.avail_idx + 1) % 65536) ∧
    (Split.publish s head tkn).1.token_ring[head]? = some (some tkn) ∧
    (Split.publish s head tkn).1.avail_ring[s.avail_idx % s.token_ring.length]?
      = some head := by
  have hm : 0 < s.token_ring.length := Nat.lt_of_le_of_lt (Nat.zero_le _) hh
  have hidx : s.avail_idx % s.token_ring.length < s.avail_ring.length := by
    rw [hlen]
    exact Nat.mod_lt _ hm
  unfold Split.publish
  refine ⟨rfl, rfl, ?_, ?_⟩
  · exact List.getElem?_set_self hh
  · simp only [List.length_set]
    exact List.getElem?_set_self hidx

/-- C6: every successful split push writes the chain's head slot index into
`avail_ring[idx % size]`, increments `avail.idx` by exactly one modulo
2^16, and returns the new index. -/
theorem c6_push_avail_idx (s : Split.DescrRing) (tkn : Split.TransferToken) (n : Nat)
    (hlen : s.avail_ring.length = s.token_ring.length)
    (hpool : ∀ i ∈ s.pool, i < s.token_ring.length)
    (hok : (s.push tkn).2 = Except.ok n) :
    (s.push tkn).1.avail_idx = (s.avail_idx + 1) % 65536 ∧
    n = (s.avail_idx + 1) % 65536 ∧
    ∃ head, head < s.token_ring.length ∧
      (s.push tkn).1.token_ring[head]? = some (some tkn) ∧
      (s.push tkn).1.avail_ring[s.avail_idx % s.token_ring.length]? = some head := by
  unfold Split.DescrRing.push at hok ⊢
  cases hpc : s.pushChain tkn with
  | mk st ex =>
    obtain ⟨pool', table'⟩ := st
    rw [hpc] at hok
    cases ex with
    | error e => simp at hok
    | ok head =>
      have hhead : head ∈ s.pool := pushChain_head (by rw [hpc])
      have hh : head < s.token_ring.length := hpool head hhead
      have hps := publish_spec { s with pool := pool', descr_table := table' } head tkn hh hlen
      have hok' : (Split.publish { s with pool := pool', descr_table := table' } head tkn).2
          = Except.ok n := hok
      refine ⟨hps.1, ?_, head, hh, hps.2.2.1, hps.2.2.2⟩
      rw [hps.2.1] at hok'
      exact (Except.ok.inj hok').symm

/-- Witness for C6: the first dispatch of the reverse-completion scenario
ring. -/
theorem c6_push_avail_idx_witness :
    (c3Ring0.push c3TknA).1.avail_idx = (c3Ring0.avail_idx + 1) % 65536 ∧
    1 = (c3Ring0.avail_idx + 1) % 65536 ∧
    ∃ head, head < c3Ring0.token_ring.length ∧
      (c3Ring0.push c3TknA).1.token_ring[head]? = some (some c3TknA) ∧
      (c3Ring0.push c3TknA).1.avail_ring[c3Ring0.avail_idx % c3Ring0.token_ring.length]?
        = some head :=
  c6_push_avail_idx c3Ring0 c3TknA 1 rfl (by decide) rfl

/-- Unfolding equation of `walkChain` at positive fuel. -/
theorem walkChain_succ (t : List Split.Desc) (f i : Nat) :
    Split.walkChain t (f + 1) i
      = if (Split.tget t i).flags &&& DescF.NEXT ≠ 0
        then Split.tget t i :: Split.walkChain t f (Split.tget t i).next
        else [Split.tget t i] := rfl

/-- Unfolding equation of `walkPath` at positive fuel. -/
theorem walkPath_succ (t : List Split.Desc) (f i : Nat) :
    Split.walkPath t (f + 1) i
      = if (Split.tget t i).flags &&& DescF.NEXT ≠ 0
        then i :: Split.walkPath t f (Split.tget t i).next
        else [i] := rfl

/-- Reading a slot other than the one just written is unchanged. -/
theorem tget_set_ne {t : List Split.Desc} {i j : Nat} (h : i ≠ j) (d : Split.Desc) :
    Split.tget (t.set i d) j = Split.tget t j := by
  unfold Split.tget
  rw [List.getElem?_set_ne h]

/-- Reading the slot just written yields the written descriptor. -/
theorem tget_set_self {t : List Split.Desc} {i : Nat} (h : i < t.length) (d : Split.Desc) :
    Split.tget (t.set i d) i = d := by
  unfold Split.tget
  rw [List.getElem?_set_self h]
  rfl

/-- The walk's starting slot is on its path (at positive fuel). -/
theorem mem_walkPath_self (t : List Split.Desc) (f i : Nat) :
    i ∈ Split.walkPath t (f + 1) i := by
  rw [walkPath_succ]
  by_cases h : (Split.tget t i).flags &&& DescF.NEXT ≠ 0
  · rw [if_pos h]; exact List.mem_cons_self ..
  · rw [if_neg h]; exact List.mem_singleton.mpr rfl

/-- Writing a slot that is not on a walk's path changes neither the walk
nor its path. -/
theorem walk_set_not_mem (d : Split.Desc) :
    ∀ (f : Nat) (t : List Split.Desc) (p i : Nat),
      i ∉ Split.walkPath t f p →
      Split.walkChain (t.set i d) f p = Split.walkChain t f p ∧
      Split.walkPath (t.set i d) f p = Split.walkPath t f p := by
  intro f
  induction f with
  | zero => exact fun t p i _ => ⟨rfl, rfl⟩
  | succ f ih =>
    intro t p i h
    have hip : i ≠ p := by
      intro he
      subst he
      exact h (mem_walkPath_self t f i)
    have htg : Split.tget (t.set i d) p = Split.tget t p := tget_set_ne hip d
    by_cases hfl : (Split.tget t p).flags &&& DescF.NEXT ≠ 0
    · have htail : i ∉ Split.walkPath t f (Split.tget t p).next := by
        intro hmem
        apply h
        rw [walkPath_succ, if_pos hfl]
        exact List.mem_cons_of_mem _ hmem
      obtain ⟨ihc, ihp⟩ := ih t (Split.tget t p).next i htail
      constructor
      · rw [walkChain_succ, walkChain_succ, htg, if_pos hfl, if_pos hfl, ihc]
      · rw [walkPath_succ, walkPath_succ, htg, if_pos hfl, if_pos hfl, ihp]
    · constructor
      · rw [walkChain_succ, walkChain_succ, htg, if_neg hfl, if_neg hfl]
      · rw [walkPath_succ, walkPath_succ, htg, if_neg hfl, if_neg hfl]

/-- After a successful `pushRest`, walking the chain from the returned head
yields the just-written descriptors in reverse write order (their flags
with `NEXT` added) followed by the walk that starts at `prev` in the old
table — provided the pool slots are distinct, in range, and disjoint from
that old walk. -/
theorem pushRest_walk :
    ∀ (descs : List Split.Desc) (prev : Nat) (pool : List Nat) (t : List Split.Desc)
      (f : Nat) (pool' : List Nat) (t' : List Split.Desc) (head : Nat),
      pool.Nodup →
      (∀ i ∈ pool, i < t.length) →
      (∀ j ∈ Split.walkPath t f prev, j ∉ pool) →
      (∀ d ∈ descs, d.flags = 0 ∨ d.flags = DescF.WRITE) →
      Split.pushRest descs prev pool t = ((pool', t'), Except.ok head) →
      (Split.walkChain t' (descs.length + f) head).map Split.Desc.flags
        = (descs.map fun d => d.flags ||| DescF.NEXT).reverse
            ++ (Split.walkChain t f prev).map Split.Desc.flags := by
  intro descs
  induction descs with
  | nil =>
    intro prev pool t f pool' t' head _ _ _ _ h
    unfold Split.pushRest at h
    have htl : t = t' := congrArg (fun x => x.1.2) h
    have hhd : prev = head := Except.ok.inj (congrArg (fun x => x.2) h)
    subst htl hhd
    simp
  | cons d rest ih =>
    intro prev pool t f pool' t' head hnd hb hdisj hf h
    unfold Split.pushRest at h
    cases hp : Split.poolPop pool with
    | none =>
      rw [hp] at h
      exact absurd (congrArg (fun x => x.2) h) (by simp)
    | some pr =>
      obtain ⟨i, pool1⟩ := pr
      rw [hp] at h
      obtain ⟨hiMem, hpoolEq⟩ := poolPop_spec hp
      have hndp : (pool1 ++ [i]).Nodup := hpoolEq ▸ hnd
      have hnd1 : pool1.Nodup := (List.nodup_append.mp hndp).1
      have hinot : i ∉ pool1 := by
        intro hmem
        exact (List.nodup_append.mp hndp).2.2 hmem (List.mem_singleton.mpr rfl)
      have hilen : i < t.length := hb i hiMem
      have hfl0 : d.flags = 0 ∨ d.flags = DescF.WRITE := hf d (List.mem_cons_self ..)
      have hflNext : ({ d with flags := d.flags ||| DescF.NEXT, next := prev } : Split.Desc).flags
          &&& DescF.NEXT ≠ 0 := by
        show (d.flags ||| DescF.NEXT) &&& DescF.NEXT ≠ 0
        rcases hfl0 with h0 | h0 <;> rw [h0] <;> decide
      have hinotPath : i ∉ Split.walkPath t f prev := fun hmem => hdisj i hmem hiMem
      obtain ⟨hchainEq, hpathEq⟩ :=
        walk_set_not_mem { d with flags := d.flags ||| DescF.NEXT, next := prev }
          f t prev i hinotPath
      have htgi : Split.tget
          (t.set i { d with flags := d.flags ||| DescF.NEXT, next := prev }) i
          = { d with flags := d.flags ||| DescF.NEXT, next := prev } :=
        tget_set_self hilen _
      have hchain1 : Split.walkChain
          (t.set i { d with flags := d.flags ||| DescF.NEXT, next := prev }) (f + 1) i
          = { d with flags := d.flags ||| DescF.NEXT, next := prev }
              :: Split.walkChain t f prev := by
        rw [walkChain_succ, htgi, if_pos hflNext]
        congr 1
      have hpath1 : Split.walkPath
          (t.set i { d with flags := d.flags ||| DescF.NEXT, next := prev }) (f + 1) i
          = i :: Split.walkPath t f prev := by
        rw [walkPath_succ, htgi, if_pos hflNext]
        congr 1
      have hb1 : ∀ j ∈ pool1,
          j < (t.set i { d with flags := d.flags ||| DescF.NEXT, next := prev }).length := by
        intro j hj
        rw [List.length_set]
        exact hb j (by rw [hpoolEq]; exact List.mem_append_left _ hj)
      have hdisj1 : ∀ j ∈ Split.walkPath
          (t.set i { d with flags := d.flags ||| DescF.NEXT, next := prev }) (f + 1) i,
          j ∉ pool1 := by
        intro j hj
        rw [hpath1] at hj
        rcases List.mem_cons.mp hj with hj | hj
        · subst hj; exact hinot
        · intro hjmem
          exact hdisj j hj (by rw [hpoolEq]; exact List.mem_append_left _ hjmem)
      have hf1 : ∀ x ∈ rest, x.flags = 0 ∨ x.flags = DescF.WRITE :=
        fun x hx => hf x (List.mem_cons_of_mem _ hx)
      have hmain := ih i pool1 _ (f + 1) pool' t' head hnd1 hb1 hdisj1 hf1 h
      rw [hchain1] at hmain
      have hlen : (d :: rest).length + f = rest.length + (f + 1) := by
        simp only [List.length_cons]
        omega
      rw [hlen, hmain]
      simp [List.append_assoc]

/-- The reversed descriptor sequence a split push builds is the reversed
recv descriptors (flags `WRITE`) followed by the reversed send descriptors
(flags empty). -/
theorem revAllDescs_split (tkn : Split.TransferToken) :
    ∃ R S : List Split.Desc,
      Split.revAllDescs tkn = R ++ S ∧
      (∀ d ∈ R, d.flags = DescF.WRITE) ∧
      (∀ d ∈ S, d.flags = 0) := by
  refine ⟨Split.revRecvDescs tkn, Split.revSendDescs tkn, rfl, ?_, ?_⟩
  · intro d hd
    obtain ⟨m, _, rfl⟩ := List.mem_map.mp hd
    rfl
  · intro d hd
    obtain ⟨m, _, rfl⟩ := List.mem_map.mp hd
    rfl

/-- Reversing a `WRITE`-then-empty flag sequence and adding `NEXT` to the
tail descriptors yields a chain whose device-readable entries precede its
device-writable entries. -/
theorem flags_order {R S : List Split.Desc} {d0 : Split.Desc} {rest : List Split.Desc}
    (hRS : d0 :: rest = R ++ S)
    (hR : ∀ d ∈ R, d.flags = DescF.WRITE) (hS : ∀ d ∈ S, d.flags = 0) :
    readsBeforeWrites
      ((rest.map fun d => d.flags ||| DescF.NEXT).reverse ++ [d0.flags]) := by
  cases R with
  | nil =>
    rw [List.nil_append] at hRS
    subst hRS
    refine ⟨_, [], (List.append_nil _).symm, ?_, by intro f hf; cases hf⟩
    intro f hf
    rcases List.mem_append.mp hf with hf | hf
    · obtain ⟨d, hd, rfl⟩ := List.mem_map.mp (List.mem_reverse.mp hf)
      rw [hS d (List.mem_cons_of_mem _ hd)]
      decide
    · obtain rfl := List.mem_singleton.mp hf
      rw [hS d0 (List.mem_cons_self ..)]
      decide
  | cons r0 R' =>
    rw [List.cons_append] at hRS
    obtain ⟨hd0, hrest⟩ := List.cons.inj hRS
    subst hd0
    subst hrest
    refine ⟨(S.map fun d => d.flags ||| DescF.NEXT).reverse,
            (R'.map fun d => d.flags ||| DescF.NEXT).reverse ++ [d0.flags], ?_, ?_, ?_⟩
    · rw [List.map_append, List.reverse_append, List.append_assoc]
    · intro f hf
      obtain ⟨d, hd, rfl⟩ := List.mem_map.mp (List.mem_reverse.mp hf)
      rw [hS d hd]
      decide
    · intro f hf
      rcases List.mem_append.mp hf with hf | hf
      · obtain ⟨d, hd, rfl⟩ := List.mem_map.mp (List.mem_reverse.mp hf)
        rw [hR d (List.mem_cons_of_mem _ hd)]
        decide
      · obtain rfl := List.mem_singleton.mp hf
        rw [hR d0 (List.mem_cons_self ..)]
        decide

/-- C4, split direct chains: after a successful direct `pushChain`, the
chain the device walks from the head slot has all device-readable (send)
descriptors before all device-writable (recv) ones. -/
theorem c4_split_direct (s : Split.DescrRing) (tkn : Split.TransferToken) (head : Nat)
    (hctrl : tkn.ctrl_desc = none) (hnd : s.pool.Nodup)
    (hb : ∀ i ∈ s.pool, i < s.descr_table.length)
    (hok : (s.pushChain tkn).2 = Except.ok head) :
    readsBeforeWrites
      ((Split.walkChain (s.pushChain tkn).1.2 (Split.revAllDescs tkn).length head).map
        Split.Desc.flags) := by
  obtain ⟨R, S, hRS, hR, hS⟩ := revAllDescs_split tkn
  unfold Split.DescrRing.pushChain at hok ⊢
  rw [hctrl] at hok ⊢
  cases hr : Split.revAllDescs tkn with
  | nil => rw [hr] at hok; cases hok
  | cons d0 rest =>
    rw [hr] at hok hRS
    cases hp : Split.poolPop s.pool with
    | none =>
      rw [hp] at hok
      simp at hok
    | some pr =>
      obtain ⟨i0, pool1⟩ := pr
      rw [hp] at hok
      have hok2 : (Split.pushRest rest i0 pool1 (s.descr_table.set i0 d0)).2
          = Except.ok head := hok
      show readsBeforeWrites
        ((Split.walkChain (Split.pushRest rest i0 pool1 (s.descr_table.set i0 d0)).1.2
          (d0 :: rest).length head).map Split.Desc.flags)
      cases hq : Split.pushRest rest i0 pool1 (s.descr_table.set i0 d0) with
      | mk st ex =>
        obtain ⟨pool', t'⟩ := st
        rw [hq] at hok2
        cases ex with
        | error e => simp at hok2
        | ok h' =>
          obtain rfl : h' = head := Except.ok.inj hok2
          obtain ⟨hiMem, hpoolEq⟩ := poolPop_spec hp
          have hndp : (pool1 ++ [i0]).Nodup := hpoolEq ▸ hnd
          have hnd1 : pool1.Nodup := (List.nodup_append.mp hndp).1
          have hinot : i0 ∉ pool1 := by
            intro hmem
            exact (List.nodup_append.mp hndp).2.2 hmem (List.mem_singleton.mpr rfl)
          have hilen : i0 < s.descr_table.length := hb i0 hiMem
          have hfl0 : d0.flags = 0 ∨ d0.flags = DescF.WRITE := by
            have hmem0 : d0 ∈ R ++ S := by
              rw [← hRS]
              exact List.mem_cons_self ..
            rcases List.mem_append.mp hmem0 with hm | hm
            · exact Or.inr (hR d0 hm)
            · exact Or.inl (hS d0 hm)
          have hrestfl : ∀ d ∈ rest, d.flags = 0 ∨ d.flags = DescF.WRITE := by
            intro d hd
            have hmemd : d ∈ R ++ S := by
              rw [← hRS]
              exact List.mem_cons_of_mem _ hd
            rcases List.mem_append.mp hmemd with hm | hm
            · exact Or.inr (hR d hm)
            · exact Or.inl (hS d hm)
          have htgi : Split.tget (s.descr_table.set i0 d0) i0 = d0 :=
            tget_set_self hilen d0
          have hd0NoNext : ¬((Split.tget (s.descr_table.set i0 d0) i0).flags
              &&& DescF.NEXT ≠ 0) := by
            rw [htgi]
            rcases hfl0 with h0 | h0 <;> rw [h0] <;> decide
          have hbase : Split.walkChain (s.descr_table.set i0 d0) 1 i0 = [d0] := by
            rw [walkChain_succ, if_neg hd0NoNext, htgi]
          have hpathBase : Split.walkPath (s.descr_table.set i0 d0) 1 i0 = [i0] := by
            rw [walkPath_succ, if_neg hd0NoNext]
          have hb1 : ∀ j ∈ pool1, j < (s.descr_table.set i0 d0).length := by
            intro j hj
            rw [List.length_set]
            exact hb j (by rw [hpoolEq]; exact List.mem_append_left _ hj)
          have hdisj1 : ∀ j ∈ Split.walkPath (s.descr_table.set i0 d0) 1 i0, j ∉ pool1 := by
            intro j hj
            rw [hpathBase] at hj
            obtain rfl := List.mem_singleton.mp hj
            exact hinot
          have hwalk := pushRest_walk rest i0 pool1 (s.descr_table.set i0 d0) 1
            pool' t' h' hnd1 hb1 hdisj1 hrestfl hq
          rw [hbase] at hwalk
          show readsBeforeWrites
            ((Split.walkChain t' (d0 :: rest).length h').map Split.Desc.flags)
          have hlen : (d0 :: rest).length = rest.length + 1 := by
            simp [List.length_cons]
          rw [hlen, hwalk]
          exact flags_order hRS hR hS

/-- `mkIndirectTable` distributes over append (the `next` links keep
counting through). -/
theorem mkIndirectTable_append (A B : List (MemDescr × Nat)) :
    ∀ i, Split.mkIndirectTable (A ++ B) i
      = Split.mkIndirectTable A i ++ Split.mkIndirectTable B (i + A.length) := by
  induction A with
  | nil =>
    intro i
    simp [Split.mkIndirectTable]
  | cons p A ih =>
    intro i
    obtain ⟨m, f⟩ := p
    show _ :: Split.mkIndirectTable (A ++ B) (i + 1)
      = _ :: (Split.mkIndirectTable A (i + 1) ++ _)
    rw [ih (i + 1)]
    have hn : i + 1 + A.length = i + (A.length + 1) := by omega
    rw [hn]
    rfl

/-- Every entry built from constant incomplete flags `c` carries flags
`c ||| NEXT`. -/
theorem mkIndirectTable_flags (c : Nat) :
    ∀ (l : List MemDescr) (i : Nat) (d : Split.Desc),
      d ∈ Split.mkIndirectTable (l.map fun m => (m, c)) i →
      d.flags = c ||| DescF.NEXT := by
  intro l
  induction l with
  | nil =>
    intro i d hd
    cases hd
  | cons m l ih =>
    intro i d hd
    rw [List.map_cons] at hd
    rcases List.mem_cons.mp hd with h | h
    · rw [h]
    · exact ih (i + 1) d h

/-- C4, split indirect tables: the control table `create_indirect_ctrl`
returns has all device-readable descriptors before all device-writable
ones. -/
theorem c4_split_indirect (send recv : Option (List MemDescr))
    (tbl : List Split.Desc)
    (h : Split.SplitVq.create_indirect_ctrl send recv = Except.ok tbl) :
    readsBeforeWrites (tbl.map Split.Desc.flags) := by
  have hT : Split.mkIndirectTable (Split.splitCtrlPairs send recv) 0
      = Split.mkIndirectTable ((Split.optDescrList send).map fun m => (m, 0)) 0
        ++ Split.mkIndirectTable ((Split.optDescrList recv).map fun m => (m, DescF.WRITE))
            (0 + ((Split.optDescrList send).map fun m => (m, 0)).length) :=
    mkIndirectTable_append _ _ 0
  have hSfl : ∀ d ∈ Split.mkIndirectTable
      ((Split.optDescrList send).map fun m => (m, 0)) 0, Split.Desc.flags d = 1 := by
    intro d hd
    have := mkIndirectTable_flags 0 (Split.optDescrList send) 0 d hd
    simpa using this
  have hRfl : ∀ d ∈ Split.mkIndirectTable
      ((Split.optDescrList recv).map fun m => (m, DescF.WRITE))
      (0 + ((Split.optDescrList send).map fun m => (m, 0)).length),
      Split.Desc.flags d = 3 := by
    intro d hd
    have := mkIndirectTable_flags DescF.WRITE (Split.optDescrList recv) _ d hd
    simpa using this
  unfold Split.SplitVq.create_indirect_ctrl at h
  rcases List.eq_nil_or_concat (Split.mkIndirectTable
      ((Split.optDescrList recv).map fun m => (m, DescF.WRITE))
      (0 + ((Split.optDescrList send).map fun m => (m, 0)).length)) with hre | hre
  · -- no recv part: every final flag word has `WRITE` clear
    rw [hre, List.append_nil] at hT
    cases hg : (Split.mkIndirectTable (Split.splitCtrlPairs send recv) 0).getLast? with
    | none =>
      rw [hg] at h
      simp at h
    | some last =>
      rw [hg] at h
      have htbl := (Except.ok.inj h).symm
      have hlastMem : last ∈ Split.mkIndirectTable (Split.splitCtrlPairs send recv) 0 :=
        List.mem_of_getLast?_eq_some hg
      refine ⟨tbl.map Split.Desc.flags, [], (List.append_nil _).symm, ?_,
        by intro f hf; cases hf⟩
      intro f hf
      obtain ⟨d, hd, rfl⟩ := List.mem_map.mp hf
      rw [htbl] at hd
      rcases List.mem_append.mp hd with hd | hd
      · have hdT : d ∈ Split.mkIndirectTable (Split.splitCtrlPairs send recv) 0 :=
          List.dropLast_subset _ hd
        rw [hT] at hdT
        rw [hSfl d hdT]
        decide
      · obtain rfl := List.mem_singleton.mp hd
        have : Split.Desc.flags last = 1 := hSfl last (hT ▸ hlastMem)
        show (last.flags &&& 0xFFFE) &&& DescF.WRITE = 0
        rw [this]
        decide
  · -- recv part ends the table
    obtain ⟨R2, rl, hre⟩ := hre
    rw [List.concat_eq_append] at hre
    have hTc : Split.mkIndirectTable (Split.splitCtrlPairs send recv) 0
        = (Split.mkIndirectTable ((Split.optDescrList send).map fun m => (m, 0)) 0
            ++ R2) ++ [rl] := by
      rw [hT, hre, List.append_assoc]
    cases hg : (Split.mkIndirectTable (Split.splitCtrlPairs send recv) 0).getLast? with
    | none =>
      rw [hg] at h
      simp at h
    | some last =>
      rw [hg] at h
      have htbl := (Except.ok.inj h).symm
      have hlast : last = rl := by
        rw [hTc, List.getLast?_concat] at hg
        exact (Option.some.inj hg).symm
      have hrlMem : rl ∈ Split.mkIndirectTable
          ((Split.optDescrList recv).map fun m => (m, DescF.WRITE))
          (0 + ((Split.optDescrList send).map fun m => (m, 0)).length) := by
        rw [hre]
        exact List.mem_append_right _ (List.mem_singleton.mpr rfl)
      have hdrop : (Split.mkIndirectTable (Split.splitCtrlPairs send recv) 0).dropLast
          = Split.mkIndirectTable ((Split.optDescrList send).map fun m => (m, 0)) 0
            ++ R2 := by
        rw [hTc, List.dropLast_concat]
      rw [hlast, hdrop] at htbl
      refine ⟨(Split.mkIndirectTable ((Split.optDescrList send).map fun m => (m, 0)) 0).map
          Split.Desc.flags,
        R2.map Split.Desc.flags ++ [rl.flags &&& 0xFFFE], ?_, ?_, ?_⟩
      · rw [htbl]
        simp [List.map_append]
      · intro f hf
        obtain ⟨d, hd, rfl⟩ := List.mem_map.mp hf
        rw [hSfl d hd]
        decide
      · intro f hf
        rcases List.mem_append.mp hf with hf | hf
        · obtain ⟨d, hd, rfl⟩ := List.mem_map.mp hf
          have hdR : d ∈ Split.mkIndirectTable
              ((Split.optDescrList recv).map fun m => (m, DescF.WRITE))
              (0 + ((Split.optDescrList send).map fun m => (m, 0)).length) := by
            rw [hre]
            exact List.mem_append_left _ hd
          rw [hRfl d hdR]
          decide
        · obtain rfl := List.mem_singleton.mp hf
          rw [hRfl rl hrlMem]
          decide

/-- C4, packed indirect tables: the entries `create_indirect_ctrl`
serializes have all device-readable descriptors before all device-writable
ones. -/
theorem c4_packed_indirect (send recv : Option (List MemDescr))
    (entries : List Packed.Descriptor)
    (h : Packed.PackedVq.create_indirect_ctrl_entries send recv = Except.ok entries) :
    readsBeforeWrites (entries.map Packed.Descriptor.flags) := by
  cases send with
  | none =>
    cases recv with
    | none => cases h
    | some recv_desc_lst =>
      have hent := (Except.ok.inj h).symm
      refine ⟨[], entries.map Packed.Descriptor.flags, (List.nil_append _).symm, ?_, ?_⟩
      · intro f hf
        cases hf
      · intro f hf
        obtain ⟨d, hd, rfl⟩ := List.mem_map.mp hf
        rw [hent] at hd
        obtain ⟨m, _, rfl⟩ := List.mem_map.mp hd
        show Packed.DescrFlags.VIRTQ_DESC_F_WRITE &&& DescF.WRITE ≠ 0
        decide
  | some send_desc_lst =>
    cases recv with
    | none =>
      have hent := (Except.ok.inj h).symm
      refine ⟨entries.map Packed.Descriptor.flags, [], (List.append_nil _).symm, ?_, ?_⟩
      · intro f hf
        obtain ⟨d, hd, rfl⟩ := List.mem_map.mp hf
        rw [hent] at hd
        obtain ⟨m, _, rfl⟩ := List.mem_map.mp hd
        show (0 : Nat) &&& DescF.WRITE = 0
        decide
      · intro f hf
        cases hf
    | some recv_desc_lst =>
      have hent := (Except.ok.inj h).symm
      refine ⟨(send_desc_lst.map fun d => Packed.Descriptor.new d.ptr d.len 0 0).map
          Packed.Descriptor.flags,
        (recv_desc_lst.map fun d =>
          Packed.Descriptor.new d.ptr d.len 0 Packed.DescrFlags.VIRTQ_DESC_F_WRITE).map
          Packed.Descriptor.flags, ?_, ?_, ?_⟩
      · rw [hent, List.map_append]
      · intro f hf
        obtain ⟨d, hd, rfl⟩ := List.mem_map.mp hf
        obtain ⟨m, _, rfl⟩ := List.mem_map.mp hd
        show (0 : Nat) &&& DescF.WRITE = 0
        decide
      · intro f hf
        obtain ⟨d, hd, rfl⟩ := List.mem_map.mp hf
        obtain ⟨m, _, rfl⟩ := List.mem_map.mp hd
        show Packed.DescrFlags.VIRTQ_DESC_F_WRITE &&& DescF.WRITE ≠ 0
        decide

/-- C4: in every descriptor chain made visible to the device — split
direct chains (walked from the head slot through the final table), split
indirect control tables, and packed indirect control tables — all
device-readable (send) descriptors precede all device-writable
(`WRITE`-flagged recv) descriptors. -/
theorem c4_chain_ordering :
    (∀ (s : Split.DescrRing) (tkn : Split.TransferToken) (head : Nat),
      tkn.ctrl_desc = none → s.pool.Nodup →
      (∀ i ∈ s.pool, i < s.descr_table.length) →
      (s.pushChain tkn).2 = Except.ok head →
      readsBeforeWrites
        ((Split.walkChain (s.pushChain tkn).1.2 (Split.revAllDescs tkn).length head).map
          Split.Desc.flags)) ∧
    (∀ (send recv : Option (List MemDescr)) (tbl : List Split.Desc),
      Split.SplitVq.create_indirect_ctrl send recv = Except.ok tbl →
      readsBeforeWrites (tbl.map Split.Desc.flags)) ∧
    (∀ (send recv : Option (List MemDescr)) (entries : List Packed.Descriptor),
      Packed.PackedVq.create_indirect_ctrl_entries send recv = Except.ok entries →
      readsBeforeWrites (entries.map Packed.Descriptor.flags)) :=
  ⟨c4_split_direct, c4_split_indirect, c4_packed_indirect⟩

/-- Witness for C4: a send+recv direct push on a fresh ring of size 4, and
one-send/one-recv indirect tables on both layouts. -/
theorem c4_chain_ordering_witness :
    readsBeforeWrites
      ((Split.walkChain (c4Ring.pushChain c4Tkn).1.2 (Split.revAllDescs c4Tkn).length 2).map
        Split.Desc.flags) ∧
    readsBeforeWrites
      (([{ addr := 100, len := 16, flags := 1, next := 1 },
         { addr := 200, len := 32, flags := 2, next := 0 }] : List Split.Desc).map
        Split.Desc.flags) ∧
    readsBeforeWrites
      (([{ address := 100, len := 16, buff_id := 0, flags := 0 },
         { address := 200, len := 32, buff_id := 0, flags := 2 }] : List Packed.Descriptor).map
        Packed.Descriptor.flags) :=
  ⟨c4_chain_ordering.1 c4Ring c4Tkn 2 rfl (by decide) (by decide) rfl,
   c4_chain_ordering.2.1 (some [{ ptr := 100, len := 16, id := 0 }])
     (some [{ ptr := 200, len := 32, id := 0 }]) _ rfl,
   c4_chain_ordering.2.2 (some [{ ptr := 100, len := 16, id := 0 }])
     (some [{ ptr := 200, len := 32, id := 0 }]) _ rfl⟩

/-- Toggling the wrap counter always changes it. -/
theorem wrap_ne (w : Packed.WrapCount) : w.wrap ≠ w := by
  cases w with
  | mk b => cases b <;> simp [Packed.WrapCount.wrap]

/-- Toggling the wrap counter negates its bit. -/
theorem wrap_val (w : Packed.WrapCount) : w.wrap.val = !w.val := by
  cases w with
  | mk b => cases b <;> simp [Packed.WrapCount.wrap]

/-- Bool fact used to move a negation across an xor. -/
theorem bool_xor_not (a b : Bool) : xor (!a) b = xor a (!b) := by
  cases a <;> cases b <;> rfl

/-- Parity of a successor, on the decidable propositions used below. -/
theorem decide_succ_mod_two (x : Nat) :
    decide ((x + 1) % 2 = 1) = !decide (x % 2 = 1) := by
  rcases Nat.mod_two_eq_zero_or_one x with h | h <;> simp [Nat.add_mod, h]

/-- The explicit result of one `incrmt` step below capacity. -/
theorem incrmt_step (c : Packed.WriteCtrl) (h : c.desc_ring.capacity ≠ 0) :
    c.incrmt = some
      { c with
        position := (c.position + 1) % c.modulo
        desc_ring :=
          { c.desc_ring with
            capacity := c.desc_ring.capacity - 1
            wrap_count :=
              if c.position + 1 = c.modulo then c.desc_ring.wrap_count.wrap
              else c.desc_ring.wrap_count
            write_index := (c.desc_ring.write_index + 1) % c.modulo } } := by
  unfold Packed.WriteCtrl.incrmt
  rw [if_neg h]
  by_cases hp : c.position + 1 = c.modulo <;> simp [hp]

/-- Iterating `incrmt` `k` times within capacity: the position advances by
`k` modulo the ring size, the capacity drops by `k`, and the wrap counter
is xored with the parity of the number of boundary crossings
`(position + k) / modulo`. -/
theorem incrmtIter_spec (k : Nat) :
    ∀ c : Packed.WriteCtrl, c.position < c.modulo → k ≤ c.desc_ring.capacity →
    ∃ c', Packed.incrmtIter k c = some c' ∧
      c'.position = (c.position + k) % c.modulo ∧
      c'.modulo = c.modulo ∧
      c'.desc_ring.capacity = c.desc_ring.capacity - k ∧
      c'.desc_ring.wrap_count.val
        = xor c.desc_ring.wrap_count.val
            (decide ((c.position + k) / c.modulo % 2 = 1)) := by
  induction k with
  | zero =>
    intro c hpos _
    refine ⟨c, rfl, ?_, rfl, rfl, ?_⟩
    · simp [Nat.mod_eq_of_lt hpos]
    · simp [Nat.div_eq_of_lt hpos]
  | succ k ih =>
    intro c hpos hcap
    have hm : 0 < c.modulo := Nat.lt_of_le_of_lt (Nat.zero_le _) hpos
    have hc0 : c.desc_ring.capacity ≠ 0 := by omega
    have hstep := incrmt_step c hc0
    set c1 : Packed.WriteCtrl :=
      { c with
        position := (c.position + 1) % c.modulo
        desc_ring :=
          { c.desc_ring with
            capacity := c.desc_ring.capacity - 1
            wrap_count :=
              if c.position + 1 = c.modulo then c.desc_ring.wrap_count.wrap
              else c.desc_ring.wrap_count
            write_index := (c.desc_ring.write_index + 1) % c.modulo } } with hc1
    have hpos1 : c1.position < c1.modulo := Nat.mod_lt _ hm
    have hcap1 : k ≤ c1.desc_ring.capacity := by
      simp only [hc1]
      omega
    obtain ⟨c', hiter, hpo, hmo, hca, hwr⟩ := ih c1 hpos1 hcap1
    have hrun : Packed.incrmtIter (k + 1) c = some c' := by
      unfold Packed.incrmtIter
      rw [hstep]
      exact hiter
    have hnum : c.position + 1 + k = c.position + (k + 1) := by omega
    refine ⟨c', hrun, ?_, ?_, ?_, ?_⟩
    · rw [hpo]
      show ((c.position + 1) % c.modulo + k) % c.modulo = _
      rw [Nat.mod_add_mod, hnum]
    · rw [hmo]
    · rw [hca]
      show c.desc_ring.capacity - 1 - k = _
      omega
    · rw [hwr]
      by_cases hpm : c.position + 1 = c.modulo
      · have hpz : c1.position = 0 := by
          simp only [hc1, hpm, Nat.mod_self]
        have hwz : c1.desc_ring.wrap_count = c.desc_ring.wrap_count.wrap := by
          simp only [hc1, if_pos hpm]
        rw [hpz, hwz, wrap_val]
        have hdiv : (c.position + (k + 1)) / c.modulo = k / c.modulo + 1 := by
          have : c.position + (k + 1) = k + c.modulo := by omega
          rw [this, Nat.add_div_right _ hm]
        rw [hdiv]
        show xor (!c.desc_ring.wrap_count.val) (decide ((0 + k) / c1.modulo % 2 = 1)) = _
        rw [hmo] at *
        simp only [Nat.zero_add, hc1]
        rw [decide_succ_mod_two, bool_xor_not]
      · have hlt : c.position + 1 < c.modulo :=
          Nat.lt_of_le_of_ne (Nat.succ_le_of_lt hpos) hpm
        have hpz : c1.position = c.position + 1 := by
          simp only [hc1, Nat.mod_eq_of_lt hlt]
        have hwz : c1.desc_ring.wrap_count = c.desc_ring.wrap_count := by
          simp only [hc1, if_neg hpm]
        rw [hpz, hwz]
        show xor c.desc_ring.wrap_count.val
            (decide ((c.position + 1 + k) / c1.modulo % 2 = 1)) = _
        simp only [hc1]
        rw [hnum]

/-- C7: the packed wrap counter starts at 1; `incrmt` flips it exactly when
the write position wraps from the last ring slot back to slot 0; and after
`n` full passes around the ring (`n * modulo` `incrmt` steps within
capacity) it equals the initial value XOR (n mod 2), the position having
returned to its start. -/
theorem c7_wrap_counter :
    (Packed.WrapCount.new.val = true) ∧
    (∀ c c' : Packed.WriteCtrl, c.incrmt = some c' →
      ((c'.desc_ring.wrap_count ≠ c.desc_ring.wrap_count) ↔
        c.position + 1 = c.modulo)) ∧
    (∀ (c : Packed.WriteCtrl) (n : Nat), c.position < c.modulo →
      n * c.modulo ≤ c.desc_ring.capacity →
      ∃ c', Packed.incrmtIter (n * c.modulo) c = some c' ∧
        c'.position = c.position ∧
        c'.desc_ring.wrap_count.val
          = xor c.desc_ring.wrap_count.val (decide (n % 2 = 1))) := by
  refine ⟨rfl, ?_, ?_⟩
  · intro c c' h
    have hc0 : c.desc_ring.capacity ≠ 0 := by
      intro h0
      unfold Packed.WriteCtrl.incrmt at h
      rw [if_pos h0] at h
      cases h
    rw [incrmt_step c hc0] at h
    have hc' := Option.some.inj h
    subst hc'
    by_cases hpm : c.position + 1 = c.modulo
    · simp only [if_pos hpm]
      exact ⟨fun _ => hpm, fun _ => wrap_ne _⟩
    · simp only [if_neg hpm]
      exact ⟨fun hne => absurd rfl hne, fun hp => absurd hp hpm⟩
  · intro c n hpos hcap
    obtain ⟨c', hiter, hpo, _, _, hwr⟩ := incrmtIter_spec (n * c.modulo) c hpos hcap
    refine ⟨c', hiter, ?_, ?_⟩
    · rw [hpo, Nat.add_mul_mod_self_right, Nat.mod_eq_of_lt hpos]
    · rw [hwr]
      have hm : 0 < c.modulo := Nat.lt_of_le_of_lt (Nat.zero_le _) hpos
      rw [Nat.add_mul_div_right _ _ hm, Nat.div_eq_of_lt hpos, Nat.zero_add]

/-- Witness for C7: a fresh write controller on a ring of size 2; one
`incrmt` step and one full pass. -/
theorem c7_wrap_counter_witness :
    ((c7cNext.desc_ring.wrap_count ≠ c7c.desc_ring.wrap_count) ↔
      c7c.position + 1 = c7c.modulo) ∧
    (∃ c', Packed.incrmtIter (1 * c7c.modulo) c7c = some c' ∧
      c'.position = c7c.position ∧
      c'.desc_ring.wrap_count.val
        = xor c7c.desc_ring.wrap_count.val (decide (1 % 2 = 1))) :=
  ⟨c7_wrap_counter.2.1 c7c c7cNext (by decide),
   c7_wrap_counter.2.2 c7c 1 (by decide) (by decide)⟩

/-- C8 (amended): a packed push of a transfer needing more descriptor
slots than the remaining capacity panics via the capacity assertion at the
top of `push` — before any ring state is modified — instead of returning
`NoDescrAvail`. -/
theorem c8_push_capacity_assert (s : Packed.DescriptorRing)
    (tkn : Packed.TransferToken) (tknAddr : Nat) (btk : Packed.BufferToken)
    (htk : tkn.buff_tkn = some btk) (hcap : s.capacity < btk.len) :
    Packed.DescriptorRing.push s tkn tknAddr
      = Except.error Packed.PackedPanic.capacityAssert := by
  unfold Packed.DescriptorRing.push
  rw [htk]
  exact if_neg (Nat.not_le.mpr hcap)

/-- Witness for the amended C8 theorem: a ring with capacity 1 and a
two-descriptor transfer. -/
theorem c8_push_capacity_assert_witness :
    Packed.DescriptorRing.push c8RingW c8TknW 0
      = Except.error Packed.PackedPanic.capacityAssert :=
  c8_push_capacity_assert c8RingW c8TknW 0 c8BtkW rfl (by decide)

end Virtq
